import Mathlib

/-!
# Shallow embedding of the smartbed-mqtt core

This file embeds the algorithmic core of the smartbed-mqtt bridge in Lean and
proves properties about it.  Each definition is translated from the TypeScript
source; comments cite the file and the behaviour being mirrored.

JavaScript strings are modelled as lists of UTF-16 code units (`List Nat`).
Lowercasing is modelled on the ASCII range (`A`-`Z` ↦ `a`-`z`), which is where
all identifiers, MAC digits and error-message keywords handled by the source
live.
-/

/-- A JavaScript string, as its list of UTF-16 code units. -/
abbrev Str : Type := List Nat

/-- Encode a Lean string literal as a `Str` (all source literals are ASCII). -/
def str (s : String) : Str := s.data.map Char.toNat

/-- `String.prototype.toLowerCase`, restricted to ASCII: code units 65..90
(`A`..`Z`) map to 97..122 (`a`..`z`), everything else is unchanged. -/
def jsLowerUnit (n : Nat) : Nat := if 65 ≤ n ∧ n ≤ 90 then n + 32 else n

/-- Lowercase a JS string (`s.toLowerCase()`), ASCII range. -/
def jsToLower (s : Str) : Str := s.map jsLowerUnit

/-- The white-space code units removed by `String.prototype.trim`
(tab, LF, VT, FF, CR, space, NBSP, BOM). -/
def isJsSpace (n : Nat) : Bool :=
  n = 9 || n = 10 || n = 11 || n = 12 || n = 13 || n = 32 || n = 160 || n = 65279

/-- `String.prototype.trim`: drop leading and trailing white space. -/
def jsTrim (s : Str) : Str :=
  (s.dropWhile isJsSpace).rdropWhile isJsSpace

/-- Lower-case hexadecimal digit code units: `0`..`9` and `a`..`f`.  This is
the character class kept by `replace(/[^0-9a-f]/g, '')` after lowercasing. -/
def isHexUnit (n : Nat) : Bool := (48 ≤ n ∧ n ≤ 57) || (97 ≤ n ∧ n ≤ 102)

/-- `token.replace(/[^0-9a-f]/g, '')`: keep only lowercase-hex code units. -/
def hexOnlyOf (s : Str) : Str := s.filter isHexUnit

/-- Insertion into the key set (`Set.prototype.add` keeps first-insertion
order and deduplicates). -/
def addKey (ks : List Str) (k : Str) : List Str := if k ∈ ks then ks else ks ++ [k]

/-- Body of `normalizeIdentifierKeys` (Keeson setup module) applied to the
already-computed `token = (value ?? '').trim().toLowerCase()`.

Mirrors the source exactly:
* `token = (value ?? '').trim().toLowerCase()`; empty token yields `[]`;
* the token itself is added;
* `hexOnly = token.replace(/[^0-9a-f]/g, '')`; if it has exactly 12 code
  units it is added;
* `hexOnly.match(/[0-9a-f]{12}/)` — since `hexOnly` consists of hex digits
  only, the first (greedy, length-12) match is its first 12 code units, which
  exist exactly when `hexOnly` has at least 12; that match is added. -/
def normKeysOfToken (token : Str) : List Str :=
  if token = [] then []
  else
    let keys := addKey [] token
    let hexOnly := hexOnlyOf token
    let keys := if hexOnly.length = 12 then addKey keys hexOnly else keys
    let keys := if 12 ≤ hexOnly.length then addKey keys (hexOnly.take 12) else keys
    keys

/-- The complete normalizer: compute the token, then the key set. -/
def normalizeIdentifierKeys (value : Str) : List Str :=
  normKeysOfToken (jsToLower (jsTrim value))

-- ### Retry engine (`src/Utils/retryWithBackoff.ts`)

/-- Outcome of `retryWithBackoff` together with how many times `fn` ran.
The rejection value is `Option E` because the source throws the raw
`lastError` variable, which is still `undefined` (`none`) when the loop body
never executed. -/
structure RetryOutcome (E T : Type) where
  result : Except (Option E) T
  calls : Nat

/-- The `while` loop of `retryWithBackoff`, for the case where `maxRetries`
is defined (the claim under study fixes `maxRetries = 0`).  `fn` is indexed
by the attempt number; `remaining = maxRetries - attempt` is the structural
fuel.  Backoff sleeps and the `onRetry` callback only affect timing/logging
and are not modelled. -/
def retryLoop {E T : Type} (fn : Nat → Except E T) (isRetryableError : E → Bool) :
    Nat → Nat → RetryOutcome E T
  | 0, _ => ⟨Except.error none, 0⟩
  | remaining + 1, attempt =>
    match fn attempt with
    | Except.ok v => ⟨Except.ok v, 1⟩
    | Except.error e =>
      -- `lastError = error; attempt++`
      if ¬ isRetryableError e then ⟨Except.error (some e), 1⟩
      else if remaining = 0 then ⟨Except.error (some e), 1⟩
      else
        let rest := retryLoop fn isRetryableError remaining (attempt + 1)
        ⟨rest.result, rest.calls + 1⟩

/-- `retryWithBackoff(fn, { maxRetries, isRetryableError })` with a defined
`maxRetries`: run the loop from `attempt = 0` with `lastError = undefined`.
Falling out of the loop throws `lastError` (`Except.error none` when the body
never ran). -/
def retryWithBackoff {E T : Type} (fn : Nat → Except E T) (maxRetries : Nat)
    (isRetryableError : E → Bool) : RetryOutcome E T :=
  retryLoop fn isRetryableError maxRetries 0

-- ### Sanity checks on small inputs

example : retryWithBackoff (fun _ => Except.ok 7) 0 (fun (_ : Unit) => true) =
    ⟨Except.error none, 0⟩ := by rfl

example : retryWithBackoff (fun _ => Except.ok 7) 2 (fun (_ : Unit) => true) =
    ⟨Except.ok 7, 1⟩ := by rfl

example :
    normalizeIdentifierKeys (str " KSBT04C060027642 ") =
      [str "ksbt04c060027642", str "b04c06002764"] := by decide

example : normalizeIdentifierKeys (str "d2:a3:3c:41:a0:72") =
    [str "d2:a3:3c:41:a0:72", str "d2a33c41a072"] := by decide

-- ### Idempotency of identifier normalization (C9)

theorem jsLowerUnit_idem (n : Nat) : jsLowerUnit (jsLowerUnit n) = jsLowerUnit n := by
  by_cases h : 65 ≤ n ∧ n ≤ 90
  · simp only [jsLowerUnit, if_pos h, if_neg (show ¬(65 ≤ n + 32 ∧ n + 32 ≤ 90) by omega)]
  · simp only [jsLowerUnit, if_neg h]

theorem jsToLower_idem (s : Str) : jsToLower (jsToLower s) = jsToLower s := by
  simp [jsToLower, jsLowerUnit_idem]

theorem isJsSpace_jsLowerUnit (n : Nat) : isJsSpace (jsLowerUnit n) = isJsSpace n := by
  by_cases h : 65 ≤ n ∧ n ≤ 90
  · have h1 : isJsSpace (n + 32) = false := by simp [isJsSpace]; omega
    have h2 : isJsSpace n = false := by simp [isJsSpace]; omega
    simp only [jsLowerUnit, if_pos h, h1, h2]
  · simp only [jsLowerUnit, if_neg h]

theorem dropWhile_map_eq {α β : Type} (f : α → β) (p : β → Bool) :
    ∀ l : List α, (l.map f).dropWhile p = (l.dropWhile fun a => p (f a)).map f := by
  intro l
  induction l with
  | nil => rfl
  | cons a l ih =>
    by_cases h : p (f a) <;> simp [List.dropWhile_cons, h, ih]

theorem jsTrim_jsToLower_comm (s : Str) :
    jsTrim (jsToLower s) = jsToLower (jsTrim s) := by
  have hpred : (fun n => isJsSpace (jsLowerUnit n)) = isJsSpace := by
    funext n; exact isJsSpace_jsLowerUnit n
  unfold jsTrim jsToLower List.rdropWhile
  rw [dropWhile_map_eq, hpred, ← List.map_reverse, dropWhile_map_eq, hpred, List.map_reverse]

theorem prefix_head_not {p : Nat → Bool} {u t : Str} (hu : u <+: t)
    (ht : t.dropWhile p = t) : u.dropWhile p = u := by
  cases u with
  | nil => rfl
  | cons a u' =>
    obtain ⟨r, hr⟩ := hu
    have hpa : p a = false := by
      by_contra hpa
      have hpa' : p a = true := by
        cases hp : p a
        · exact absurd hp hpa
        · rfl
      have : t.dropWhile p = (u' ++ r).dropWhile p := by
        rw [← hr]; simp [List.dropWhile_cons, hpa']
      have hlen : t.length ≤ (u' ++ r).length := by
        rw [ht] at this; rw [this]; exact (u' ++ r).dropWhile_suffix p |>.length_le
      rw [← hr] at hlen
      simp only [List.length_cons, List.length_append] at hlen
      omega
    simp [List.dropWhile_cons, hpa]

theorem jsTrim_idem (s : Str) : jsTrim (jsTrim s) = jsTrim s := by
  unfold jsTrim
  have h1 : (s.dropWhile isJsSpace).dropWhile isJsSpace = s.dropWhile isJsSpace :=
    List.dropWhile_idempotent _ _
  have hpre : (s.dropWhile isJsSpace).rdropWhile isJsSpace <+: s.dropWhile isJsSpace :=
    List.rdropWhile_prefix _ _
  have h2 : ((s.dropWhile isJsSpace).rdropWhile isJsSpace).dropWhile isJsSpace =
      (s.dropWhile isJsSpace).rdropWhile isJsSpace := prefix_head_not hpre h1
  rw [h2, List.rdropWhile_idempotent]

/-- The token computed for an input is itself fixed by trimming and
lowercasing, so normalizing it again normalizes to the same key set. -/
theorem token_fixed (x : Str) :
    jsToLower (jsTrim (jsToLower (jsTrim x))) = jsToLower (jsTrim x) := by
  rw [jsTrim_jsToLower_comm, jsToLower_idem, jsTrim_idem]

theorem normalize_token_eq (x : Str) :
    normalizeIdentifierKeys (jsToLower (jsTrim x)) = normalizeIdentifierKeys x := by
  unfold normalizeIdentifierKeys
  rw [token_fixed]

theorem mem_addKey {ks : List Str} {k z : Str} : z ∈ addKey ks k ↔ z ∈ ks ∨ z = k := by
  unfold addKey
  split
  · rename_i h
    constructor
    · exact Or.inl
    · rintro (hz | rfl)
      · exact hz
      · exact h
  · simp

theorem self_mem_addKey {ks : List Str} (k : Str) : k ∈ addKey ks k := by
  rw [mem_addKey]; exact Or.inr rfl

theorem addKey_subset {ks : List Str} (k : Str) : ks ⊆ addKey ks k := by
  intro z hz; rw [mem_addKey]; exact Or.inl hz

/-- Every unit of an all-hex string is neither upper case nor white space, so
the string is fixed by trimming, lowercasing and hex-filtering. -/
theorem allHex_fixed {h : Str} (hh : ∀ n ∈ h, isHexUnit n = true) :
    jsToLower (jsTrim h) = h ∧ hexOnlyOf h = h := by
  have hnospace : ∀ n ∈ h, isJsSpace n = false := by
    intro n hn
    have := hh n hn
    simp [isHexUnit] at this
    simp [isJsSpace]
    omega
  have hdrop : h.dropWhile isJsSpace = h := by
    cases h with
    | nil => rfl
    | cons a l => simp [List.dropWhile_cons, hnospace a (by simp)]
  have hrdrop : h.rdropWhile isJsSpace = h := by
    rw [List.rdropWhile_eq_self_iff]
    intro hl
    simp [hnospace _ (List.getLast_mem hl)]
  have htrim : jsTrim h = h := by unfold jsTrim; rw [hdrop, hrdrop]
  constructor
  · rw [htrim]
    have : ∀ n ∈ h, jsLowerUnit n = n := by
      intro n hn
      have := hh n hn
      simp [isHexUnit] at this
      unfold jsLowerUnit
      split <;> omega
    unfold jsToLower
    calc h.map jsLowerUnit = h.map id := List.map_congr_left this
    _ = h := List.map_id h
  · unfold hexOnlyOf
    exact List.filter_eq_self.mpr hh

theorem mem_hexOnlyOf {t : Str} : ∀ n ∈ hexOnlyOf t, isHexUnit n = true := by
  intro n hn
  exact (List.mem_filter.mp hn).2

theorem addKey_nil (k : Str) : addKey [] k = [k] := by simp [addKey]

theorem mem_normKeysOfToken {token z : Str} (hz : z ∈ normKeysOfToken token) :
    z = token ∨ ((∀ n ∈ z, isHexUnit n = true) ∧ z.length = 12) := by
  have htake : ∀ n ∈ (hexOnlyOf token).take 12, isHexUnit n = true := fun n hn =>
    mem_hexOnlyOf n ((List.take_prefix 12 (hexOnlyOf token)).subset hn)
  unfold normKeysOfToken at hz
  split at hz
  · exact absurd hz (List.not_mem_nil z)
  · simp only [addKey_nil] at hz
    split at hz <;> split at hz <;>
        simp only [mem_addKey, List.mem_singleton] at hz
    all_goals repeat rcases hz with hz | hz
    all_goals
      first
      | exact Or.inl rfl
      | exact Or.inl hz
      | (subst hz
         exact Or.inr ⟨mem_hexOnlyOf, by assumption⟩)
      | (subst hz
         refine Or.inr ⟨htake, ?_⟩
         rw [List.length_take]
         omega)

theorem token_mem_normKeysOfToken {token : Str} (h : token ≠ []) :
    token ∈ normKeysOfToken token := by
  unfold normKeysOfToken
  rw [if_neg h]
  simp only [addKey_nil]
  split <;> split <;>
    simp only [mem_addKey, List.mem_singleton] <;> tauto

/-- An all-hex string of length 12 normalizes to exactly itself. -/
theorem normalize_hex12 {h : Str} (hhex : ∀ n ∈ h, isHexUnit n = true)
    (hlen : h.length = 12) : normalizeIdentifierKeys h = [h] := by
  obtain ⟨hfix, hhexonly⟩ := allHex_fixed hhex
  unfold normalizeIdentifierKeys
  rw [hfix]
  unfold normKeysOfToken
  have hne : h ≠ [] := by intro he; rw [he] at hlen; simp at hlen
  rw [if_neg hne]
  have h1 : addKey [h] h = [h] := by simp [addKey]
  have h2 : h.take 12 = h := by rw [← hlen, List.take_length]
  simp only [addKey_nil, hhexonly, hlen]
  simp [h1, h2]

/-- **C9.**  Identifier normalization is idempotent: normalizing each key
produced by `normalizeIdentifierKeys x` and taking the union of the results
gives back exactly the set `normalizeIdentifierKeys x`. -/
theorem normalizeIdentifierKeys_idempotent (x z : Str) :
    z ∈ (normalizeIdentifierKeys x).flatMap normalizeIdentifierKeys ↔
      z ∈ normalizeIdentifierKeys x := by
  constructor
  · intro hz
    rw [List.mem_flatMap] at hz
    obtain ⟨y, hy, hzy⟩ := hz
    rcases mem_normKeysOfToken (hy : y ∈ normKeysOfToken (jsToLower (jsTrim x))) with
      hytok | ⟨yhex, ylen⟩
    · subst hytok
      rw [normalize_token_eq] at hzy
      exact hzy
    · rw [normalize_hex12 yhex ylen] at hzy
      rw [List.mem_singleton] at hzy
      subst hzy
      exact hy
  · intro hz
    rw [List.mem_flatMap]
    refine ⟨jsToLower (jsTrim x), ?_, ?_⟩
    · apply token_mem_normKeysOfToken
      intro htok
      have : normalizeIdentifierKeys x = [] := by
        unfold normalizeIdentifierKeys normKeysOfToken
        rw [htok]
        simp
      rw [this] at hz
      exact absurd hz (List.not_mem_nil z)
    · rw [normalize_token_eq]
      exact hz

-- ### Controller scoring (Keeson setup module, `scoreController`)

/-- Persisted per-(bed, controller) statistics (`ControllerStats`).  Times are
millisecond epochs; `lastSuccessAt` is `none` when the field is absent.  The
`lastFailureAt`/`lastError` fields are not read by the scorer and are
omitted. -/
structure ControllerStats where
  successes : Nat
  failures : Nat
  consecutiveFailures : Nat
  lastSuccessAt : Option Int
  recentFailureAts : List Int

/-- `getRecentFailureCounts(stats).last1h`: failures recorded within the last
hour. -/
def failuresLastHour (now : Int) (stats : ControllerStats) : Nat :=
  (stats.recentFailureAts.filter (fun t => now - t < 60 * 60 * 1000)).length

/-- `scoreController` (Keeson setup module).  `rssi` is
`bleDevice.advertisement?.rssi ?? -999`, passed in by the caller.  The
`if (stats.lastSuccessAt)` guard uses JS truthiness, so an epoch of `0` is
treated as absent. -/
def scoreController (now rssi : Int) (stats : ControllerStats) : Int :=
  let score := rssi
  let score :=
    match stats.lastSuccessAt with
    | some t =>
      if t ≠ 0 then
        if now - t < 6 * 60 * 60 * 1000 then score + 60
        else if now - t < 24 * 60 * 60 * 1000 then score + 25
        else score
      else score
    | none => score
  let score :=
    if 0 < stats.consecutiveFailures then
      score - min 90 ((stats.consecutiveFailures : Int) * 30)
    else score
  let score := if stats.successes + 2 < stats.failures then score - 15 else score
  score - min 40 ((failuresLastHour now stats : Int) * 10)

/-- A failing candidate (`consecutiveFailures ≥ 2`) scores at most its raw
RSSI: the success-recency bonus is at most 60 while the chronic-failure
penalty is at least 60. -/
theorem scoreController_le_rssi (now rssi : Int) (stats : ControllerStats)
    (h2 : 2 ≤ stats.consecutiveFailures) :
    scoreController now rssi stats ≤ rssi := by
  rcases stats with ⟨s, f, c, ls, rf⟩
  have hc : (2 : Int) ≤ (c : Int) := by exact_mod_cast h2
  simp only [scoreController]
  have hmin1 : (60 : Int) ≤ min 90 ((c : Int) * 30) :=
    le_min (by omega) (by nlinarith)
  have hq : (0 : Int) ≤ (failuresLastHour now ⟨s, f, c, ls, rf⟩ : Int) :=
    Int.natCast_nonneg _
  have hmin2 : (0 : Int) ≤ min 40 ((failuresLastHour now ⟨s, f, c, ls, rf⟩ : Int) * 10) :=
    le_min (by omega) (by nlinarith)
  generalize min (90 : Int) ((c : Int) * 30) = p1 at hmin1
  generalize min (40 : Int) ((failuresLastHour now ⟨s, f, c, ls, rf⟩ : Int) * 10) = p2 at hmin2
  rcases ls with _ | t
  · simp only
    split_ifs <;> omega
  · simp only
    split_ifs <;> omega

/-- A candidate with no recorded failures scores at least its raw RSSI: all
penalties vanish and the success-recency bonus is non-negative. -/
theorem rssi_le_scoreController_clean (now rssi : Int) (stats : ControllerStats)
    (hcf : stats.failures = 0) (hcc : stats.consecutiveFailures = 0)
    (hcr : stats.recentFailureAts = []) :
    rssi ≤ scoreController now rssi stats := by
  rcases stats with ⟨s, f, c, ls, rf⟩
  simp only at hcf hcc hcr
  subst hcf hcc hcr
  have hhour : failuresLastHour now ⟨s, 0, 0, ls, []⟩ = 0 := rfl
  simp only [scoreController, hhour]
  norm_num
  rcases ls with _ | t
  · simp only
    omega
  · simp only
    split_ifs <;> omega

/-- **C5.**  With equal RSSI, a candidate with `consecutiveFailures ≥ 2` never
scores strictly above a candidate with no recorded failures (zero failures,
zero consecutive failures, no recent failure timestamps), whatever the
remaining statistics fields of either candidate are. -/
theorem scoreController_failing_le_clean
    (now rssi : Int) (failing clean : ControllerStats)
    (hfail : 2 ≤ failing.consecutiveFailures)
    (hcf : clean.failures = 0) (hcc : clean.consecutiveFailures = 0)
    (hcr : clean.recentFailureAts = []) :
    scoreController now rssi failing ≤ scoreController now rssi clean :=
  le_trans (scoreController_le_rssi now rssi failing hfail)
    (rssi_le_scoreController_clean now rssi clean hcf hcc hcr)

/-- Witness for C5 at concrete statistics. -/
theorem scoreController_failing_le_clean_witness :
    scoreController 1000000 (-70)
        ⟨5, 7, 2, some 999000, [999500]⟩ ≤
      scoreController 1000000 (-70) ⟨3, 0, 0, none, []⟩ :=
  scoreController_failing_le_clean 1000000 (-70)
    ⟨5, 7, 2, some 999000, [999500]⟩ ⟨3, 0, 0, none, []⟩
    (by decide) rfl rfl rfl

/-- **C10.**  `retryWithBackoff(fn, { maxRetries: 0 })` never enters the loop
body (`attempt < maxRetries` is `0 < 0`), so `fn` is never invoked and the
final `throw lastError` rejects with the still-uninitialized `undefined`
(`Except.error none`), not with an `Error`. -/
theorem retryWithBackoff_maxRetriesZero {E T : Type} (fn : Nat → Except E T)
    (isRetryableError : E → Bool) :
    retryWithBackoff fn 0 isRetryableError =
      ⟨Except.error none, 0⟩ := rfl

-- ### Association-list maps (JS `Map` as used for per-host/per-key state)

/-- `Map.prototype.get` (first matching entry; entries are unique because
`set` removes the old one). -/
def lookupAL {β : Type} (k : String) : List (String × β) → Option β
  | [] => none
  | (a, v) :: rest => if a = k then some v else lookupAL k rest

/-- `Map.prototype.delete`. -/
def eraseAL {β : Type} (k : String) (m : List (String × β)) : List (String × β) :=
  m.filter (fun p => p.1 ≠ k)

/-- `Map.prototype.set`. -/
def insertAL {β : Type} (k : String) (v : β) (m : List (String × β)) :
    List (String × β) :=
  (k, v) :: eraseAL k m

theorem lookupAL_insert {β : Type} (k : String) (v : β) (m : List (String × β)) :
    lookupAL k (insertAL k v m) = some v := by
  simp [insertAL, lookupAL]

theorem lookupAL_insert_ne {β : Type} {k g : String} (v : β) (m : List (String × β))
    (h : g ≠ k) : lookupAL k (insertAL g v m) = lookupAL k m := by
  simp only [insertAL, lookupAL, if_neg h, eraseAL]
  induction m with
  | nil => rfl
  | cons p rest ih =>
    by_cases hp : p.1 = k
    · have : p.1 ≠ g := by rw [hp]; exact fun he => h he.symm
      cases p
      simp_all [lookupAL, List.filter]
    · cases p with
      | mk a v' =>
        by_cases hg : a = g
        · subst hg
          simp_all [lookupAL, List.filter]
        · simp_all [lookupAL, List.filter]

theorem lookupAL_erase {β : Type} (k : String) (m : List (String × β)) :
    lookupAL k (eraseAL k m) = none := by
  induction m with
  | nil => rfl
  | cons p rest ih =>
    by_cases hp : p.1 = k
    · simp_all [eraseAL, List.filter]
    · cases p
      simp_all [lookupAL, eraseAL, List.filter]

-- ### Error taxonomy (`src/Utils/retryWithBackoff.ts`, `isSocketOrBLETimeoutError`)

/-- A JS `Error` as consumed by the health monitor: `message` and (optional)
`code`, both strings; an absent `code` is the empty string (`error?.code ||
''`). -/
structure JsError where
  message : Str
  code : Str

/-- `hay.includes(needle)` on JS strings. -/
def strIncludes (needle hay : Str) : Bool := decide (needle <:+: hay)

/-- `isSocketOrBLETimeoutError(error)`: the retryability predicate.  Mirrors
the disjunction of the source, with `lower = errorMessage.toLowerCase()`. -/
def isSocketOrBLETimeoutError (e : JsError) : Bool :=
  let lower := jsToLower e.message
  e.code == str "ECONNRESET" || e.code == str "ECONNREFUSED" ||
    e.code == str "ETIMEDOUT" ||
    strIncludes (str "ECONNRESET") e.message ||
    strIncludes (str "socket") lower ||
    strIncludes (str "reset") lower ||
    strIncludes (str "timeout") lower ||
    strIncludes (str "status=133") lower ||
    strIncludes (str "reason=0x100") lower ||
    strIncludes (str "reason 0x100") lower ||
    strIncludes (str "gatt_busy") lower ||
    strIncludes (str "proxy ignored connection request") lower ||
    strIncludes (str "proxy reported hard ble failure") lower ||
    strIncludes (str "write after end") lower ||
    strIncludes (str "BluetoothDeviceConnectionResponse") e.message ||
    strIncludes (str "BluetoothGATTGetServicesDoneResponse") e.message

example : isSocketOrBLETimeoutError ⟨str "Timeout preferred after 12000ms", []⟩ = true := by
  decide

example : isSocketOrBLETimeoutError ⟨str "some config problem", []⟩ = false := by
  decide

-- ### Health monitor (`HealthMonitor` class)

/-- An MQTT publish emitted by the health monitor or the MQTT glue.  Topics
are the exact strings of the source; JSON payloads that the claims inspect
are kept structured, the other JSON payloads are opaque markers. -/
inductive Payload
  | text (s : String)
  | suppressedJson (ts : Int) (host : String) (cooldownRemainingSec : Int)
  | requestedJson (ts : Int) (host : String)
  | heartbeatJson
  | deviceHealthJson
deriving DecidableEq

structure Pub where
  topic : String
  payload : Payload
  retain : Bool
deriving DecidableEq

/-- The mutable state of the `HealthMonitor` singleton that the embedded
operations read and write.  `mqttReady` models whether `init` has stored an
MQTT connection (`this.mqtt`); timestamps are millisecond epochs. -/
structure HealthState where
  mqttReady : Bool
  consecutiveBleFailures : Nat
  restartRequested : Bool
  proxyRebootCooldownUntilByHost : List (String × Int)
  lastBleErrorRetryable : Option Bool
deriving DecidableEq

/-- `proxyRebootCooldownMs = 10 * 60_000`. -/
def proxyRebootCooldownMs : Int := 10 * 60000

/-- `bleFailureTripCount = 3`. -/
def bleFailureTripCount : Nat := 3

/-- `Math.ceil((cooldownUntil - now) / 1000)` for a positive difference. -/
def ceilSec (diff : Int) : Int := (diff + 999) / 1000

/-- `HealthMonitor.requestProxyReboot(proxyHost)` at time `now`
(`Date.now()`); `now / 1000` is `getUnixEpoch()`.  Returns the new state and
the publishes, in order.  Inside the cooldown the command is suppressed and a
breadcrumb carrying the remaining seconds is published instead; otherwise
`REBOOT` goes to the command topic, the cooldown is recorded, and an audit
breadcrumb follows. -/
def requestProxyReboot (s : HealthState) (proxyHost : String) (now : Int) :
    HealthState × List Pub :=
  if ¬ s.mqttReady then (s, [])
  else
    let cooldownUntil := (lookupAL proxyHost s.proxyRebootCooldownUntilByHost).getD 0
    if now < cooldownUntil then
      let remainingSec := ceilSec (cooldownUntil - now)
      (s, [⟨"smartbedmqtt/proxy/" ++ proxyHost ++ "/reboot_suppressed",
           Payload.suppressedJson (now / 1000) proxyHost remainingSec, false⟩])
    else
      ({ s with
          proxyRebootCooldownUntilByHost :=
            insertAL proxyHost (now + proxyRebootCooldownMs)
              s.proxyRebootCooldownUntilByHost },
        [⟨"smartbed-mqtt/proxy/" ++ proxyHost ++ "/command",
          Payload.text "REBOOT", false⟩,
         ⟨"smartbedmqtt/proxy/" ++ proxyHost ++ "/reboot_requested",
          Payload.requestedJson (now / 1000) proxyHost, false⟩])

/-- `HealthMonitor.publishHeartbeat()` (payload structure elided). -/
def publishHeartbeat (s : HealthState) : List Pub :=
  if ¬ s.mqttReady then [] else [⟨"smartbedmqtt/health", Payload.heartbeatJson, false⟩]

/-- `HealthMonitor.isDegraded()`. -/
def isDegraded (s : HealthState) : Bool :=
  0 < s.consecutiveBleFailures || s.restartRequested

/-- `HealthMonitor.publishDegradedState()`: retained boolean on
`smartbedmqtt/status/degraded`. -/
def publishDegradedState (s : HealthState) : List Pub :=
  if ¬ s.mqttReady then []
  else [⟨"smartbedmqtt/status/degraded",
        Payload.text (if isDegraded s then "true" else "false"), true⟩]

/-- `HealthMonitor.publishDeviceHealth(deviceName)`; the topic suffix is
`safeId(deviceName)`, with `safeId` passed in as a parameter because its
implementation lives outside the embedded modules. -/
def publishDeviceHealth (safeIdFn : String → String) (s : HealthState)
    (deviceName : String) : List Pub :=
  if ¬ s.mqttReady then []
  else [⟨"smartbedmqtt/health/" ++ safeIdFn deviceName, Payload.deviceHealthJson, false⟩]

/-- `HealthMonitor.requestRestart(reason)`: a no-op when a restart is already
pending; otherwise latch the request, publish a heartbeat snapshot and
resolve the restart signal. -/
def requestRestart (s : HealthState) : HealthState × List Pub :=
  if s.restartRequested then (s, [])
  else
    let s' := { s with restartRequested := true }
    (s', publishHeartbeat s')

/-- `HealthMonitor.recordBleFailure(deviceName, error, proxyHost?)` at time
`now`.  Retryable errors bump the consecutive-failure counter; at the trip
count the monitor either (with a proxy host) requests a proxy reboot, then a
full restart, then resets the counter, or (without one) only requests a full
restart.  Non-retryable errors reset the counter.  All paths end by
publishing device health, heartbeat and the degraded flag. -/
def recordBleFailure (safeIdFn : String → String) (s : HealthState)
    (deviceName : String) (e : JsError) (proxyHost : Option String) (now : Int) :
    HealthState × List Pub :=
  let retryable := isSocketOrBLETimeoutError e
  let s := { s with lastBleErrorRetryable := some retryable }
  let (s, pubs) :=
    if retryable then
      let s := { s with consecutiveBleFailures := s.consecutiveBleFailures + 1 }
      if bleFailureTripCount ≤ s.consecutiveBleFailures then
        match proxyHost with
        | some host =>
          let (s1, pubs1) := requestProxyReboot s host now
          let (s2, pubs2) := requestRestart s1
          ({ s2 with consecutiveBleFailures := 0 }, pubs1 ++ pubs2)
        | none => requestRestart s
      else (s, [])
    else ({ s with consecutiveBleFailures := 0 }, [])
  (s, pubs ++ publishDeviceHealth safeIdFn s deviceName ++ publishHeartbeat s ++
    publishDegradedState s)

-- ### Proxy-reboot rate limiting (C2)

/-- The `REBOOT` command publish for a host. -/
def rebootCmdPub (host : String) : Pub :=
  ⟨"smartbed-mqtt/proxy/" ++ host ++ "/command", Payload.text "REBOOT", false⟩

/-- The suppression breadcrumb publish for a host. -/
def rebootSuppressedPub (host : String) (ts r : Int) : Pub :=
  ⟨"smartbedmqtt/proxy/" ++ host ++ "/reboot_suppressed",
   Payload.suppressedJson ts host r, false⟩

/-- Run a sequence of `requestProxyReboot` calls `(host, Date.now())`,
threading the monitor state and recording each call's publishes. -/
def runReboots (s : HealthState) : List (String × Int) → List (String × Int × List Pub)
  | [] => []
  | (h, t) :: rest =>
    let r := requestProxyReboot s h t
    (h, t, r.2) :: runReboots r.1 rest

theorem requestProxyReboot_mqttReady (s : HealthState) (h : String) (t : Int) :
    (requestProxyReboot s h t).1.mqttReady = s.mqttReady := by
  unfold requestProxyReboot
  split
  · rfl
  · dsimp only
    split <;> rfl

theorem requestProxyReboot_preserves_other (s : HealthState) {g h : String}
    (t : Int) (hne : g ≠ h) :
    lookupAL h (requestProxyReboot s g t).1.proxyRebootCooldownUntilByHost =
      lookupAL h s.proxyRebootCooldownUntilByHost := by
  unfold requestProxyReboot
  split
  · rfl
  · dsimp only
    split
    · rfl
    · exact lookupAL_insert_ne _ _ hne

/-- If a call actually published `REBOOT` for `h`, the call was for `h`
outside its cooldown, and the new state records a cooldown of exactly
`proxyRebootCooldownMs` from the call time. -/
theorem requestProxyReboot_emits_cooldown {s : HealthState} {h : String} {t : Int}
    (hreb : rebootCmdPub h ∈ (requestProxyReboot s h t).2) :
    lookupAL h (requestProxyReboot s h t).1.proxyRebootCooldownUntilByHost =
      some (t + proxyRebootCooldownMs) := by
  unfold requestProxyReboot at hreb ⊢
  split at hreb
  · exact absurd hreb (List.not_mem_nil _)
  · rename_i hm
    dsimp only at hreb ⊢
    split at hreb
    · rename_i hcool
      rw [List.mem_singleton] at hreb
      exact absurd (congrArg Pub.payload hreb) (by simp [rebootCmdPub])
    · rename_i hcool
      simp only [if_neg hm, if_neg hcool]
      exact lookupAL_insert _ _ _

/-- Within an armed cooldown, a call for the same host publishes no `REBOOT`,
leaves the state unchanged, and publishes a `reboot_suppressed` breadcrumb
with a strictly positive `cooldownRemainingSec`. -/
theorem requestProxyReboot_suppressed {s : HealthState} {h : String} {t u : Int}
    (hm : s.mqttReady = true)
    (hc : lookupAL h s.proxyRebootCooldownUntilByHost = some u) (ht : t < u) :
    requestProxyReboot s h t =
      (s, [rebootSuppressedPub h (t / 1000) (ceilSec (u - t))]) ∧
      0 < ceilSec (u - t) := by
  constructor
  · unfold requestProxyReboot
    rw [if_neg (by simp [hm]), hc]
    simp only [Option.getD_some]
    rw [if_pos ht]
    rfl
  · unfold ceilSec
    omega

/-- After a `REBOOT` publish for `h` at time `t`, as long as every further
call happens before `u := t + cooldown`, no call publishes `REBOOT` for `h`
again and every call for `h` publishes a positive-remaining suppression
breadcrumb. -/
theorem runReboots_window {h : String} :
    ∀ (calls : List (String × Int)) (s : HealthState) (u : Int),
      s.mqttReady = true →
      lookupAL h s.proxyRebootCooldownUntilByHost = some u →
      (∀ c ∈ calls, c.2 < u) →
      ∀ e ∈ runReboots s calls,
        rebootCmdPub h ∉ e.2.2 ∧
          (e.1 = h → ∃ r, 0 < r ∧ rebootSuppressedPub h (e.2.1 / 1000) r ∈ e.2.2) := by
  intro calls
  induction calls with
  | nil => intro s u _ _ _ e he; exact absurd he (List.not_mem_nil e)
  | cons c rest ih =>
    intro s u hm hc hwin e he
    obtain ⟨g, t⟩ := c
    rw [runReboots, List.mem_cons] at he
    rcases he with he | he
    · subst he
      by_cases hg : g = h
      · subst hg
        obtain ⟨heq, hpos⟩ :=
          requestProxyReboot_suppressed hm hc (hwin (g, t) (by simp))
        rw [heq]
        refine ⟨?_, fun _ => ⟨ceilSec (u - t), hpos, by simp⟩⟩
        simp only [List.mem_singleton]
        intro hbad
        exact absurd (congrArg Pub.payload hbad) (by simp [rebootCmdPub, rebootSuppressedPub])
      · constructor
        · intro hbad
          -- a publish for host `g` never carries host `h`'s command topic
          unfold requestProxyReboot at hbad
          split at hbad
          · exact absurd hbad (List.not_mem_nil _)
          · dsimp only at hbad
            split at hbad
            · rw [List.mem_singleton] at hbad
              exact absurd (congrArg Pub.payload hbad)
                (by simp [rebootCmdPub, rebootSuppressedPub])
            · rw [List.mem_cons, List.mem_singleton] at hbad
              rcases hbad with hbad | hbad
              · have := congrArg Pub.topic hbad
                simp only [rebootCmdPub] at this
                have hgh : g = h := by
                  have h1 := congrArg (fun q => q.data) this
                  simp only [String.data_append] at h1
                  rw [List.append_assoc, List.append_assoc] at h1
                  have h2 := List.append_cancel_left h1
                  have h3 := List.append_cancel_right h2
                  exact String.ext h3.symm
                exact hg hgh
              · exact absurd (congrArg Pub.payload hbad)
                  (by simp [rebootCmdPub, rebootSuppressedPub])
        · intro hgh; exact absurd hgh hg
    · by_cases hg : g = h
      · subst hg
        obtain ⟨heq, _⟩ :=
          requestProxyReboot_suppressed hm hc (hwin (g, t) (by simp))
        rw [heq] at he
        exact ih s u hm hc (fun c hcr => hwin c (List.mem_cons_of_mem _ hcr)) e he
      · refine ih (requestProxyReboot s g t).1 u ?_ ?_
          (fun c hcr => hwin c (List.mem_cons_of_mem _ hcr)) e he
        · rw [requestProxyReboot_mqttReady]; exact hm
        · rw [requestProxyReboot_preserves_other s t hg]; exact hc

/-- **C2.**  After a call that published `REBOOT` for host `h` at time `t`,
every further `requestProxyReboot` call made before `t + 10 min` publishes no
`REBOOT` for `h`; each of those calls that is for `h` publishes a
`reboot_suppressed` breadcrumb whose `cooldownRemainingSec` is strictly
positive.  Hence `REBOOT` is published at most once per 10 minutes per
host. -/
theorem requestProxyReboot_rate_limited
    (s : HealthState) (h : String) (t : Int) (calls : List (String × Int))
    (hm : s.mqttReady = true)
    (hreb : rebootCmdPub h ∈ (requestProxyReboot s h t).2)
    (hwin : ∀ c ∈ calls, c.2 < t + proxyRebootCooldownMs) :
    ∀ e ∈ runReboots (requestProxyReboot s h t).1 calls,
      rebootCmdPub h ∉ e.2.2 ∧
        (e.1 = h → ∃ r, 0 < r ∧ rebootSuppressedPub h (e.2.1 / 1000) r ∈ e.2.2) := by
  have hm' : (requestProxyReboot s h t).1.mqttReady = true := by
    rw [requestProxyReboot_mqttReady]; exact hm
  exact runReboots_window calls _ (t + proxyRebootCooldownMs) hm'
    (requestProxyReboot_emits_cooldown hreb) hwin

/-- Witness for C2: host `10.0.0.50` reboots at `t = 0`; a second request at
`t = 60 s` is suppressed with 540 s remaining and publishes no `REBOOT`. -/
theorem requestProxyReboot_rate_limited_witness :
    rebootCmdPub "10.0.0.50" ∉
        [rebootSuppressedPub "10.0.0.50" 60 540] ∧
      ((("10.0.0.50" : String), (60000 : Int),
          [rebootSuppressedPub "10.0.0.50" 60 540]).1 = "10.0.0.50" →
        ∃ r, 0 < r ∧
          rebootSuppressedPub "10.0.0.50" ((60000 : Int) / 1000) r ∈
            [rebootSuppressedPub "10.0.0.50" 60 540]) :=
  requestProxyReboot_rate_limited ⟨true, 0, false, [], none⟩ "10.0.0.50" 0
    [("10.0.0.50", 60000)] rfl (by decide) (by decide)
    ("10.0.0.50", 60000, [rebootSuppressedPub "10.0.0.50" 60 540]) (by decide)

-- ### Failure escalation (C3)

theorem requestRestart_requested (s : HealthState) :
    (requestRestart s).1.restartRequested = true := by
  unfold requestRestart
  split
  · assumption
  · rfl

/-- With an MQTT connection present, `requestProxyReboot` always dispatches:
it publishes either the `REBOOT` command or a suppression breadcrumb with
strictly positive remaining seconds. -/
theorem requestProxyReboot_dispatches (s : HealthState) (host : String) (now : Int)
    (hm : s.mqttReady = true) :
    rebootCmdPub host ∈ (requestProxyReboot s host now).2 ∨
      ∃ r, 0 < r ∧
        rebootSuppressedPub host (now / 1000) r ∈ (requestProxyReboot s host now).2 := by
  unfold requestProxyReboot
  rw [if_neg (by simp [hm])]
  dsimp only
  split
  · rename_i hcool
    right
    refine ⟨ceilSec ((lookupAL host s.proxyRebootCooldownUntilByHost).getD 0 - now), ?_, ?_⟩
    · unfold ceilSec
      omega
    · simp [rebootSuppressedPub]
  · left
    simp [rebootCmdPub]

/-- Unfolding `recordBleFailure` on the escalation path with a proxy host:
retryable error, counter tripping from 2 to 3. -/
theorem recordBleFailure_trip_some_eq
    (safeIdFn : String → String) (s : HealthState) (name : String) (e : JsError)
    (host : String) (now : Int)
    (hcnt : s.consecutiveBleFailures = 2)
    (hret : isSocketOrBLETimeoutError e = true) :
    recordBleFailure safeIdFn s name e (some host) now =
      (let s0 : HealthState :=
        { s with lastBleErrorRetryable := some true,
                 consecutiveBleFailures := s.consecutiveBleFailures + 1 }
       let r1 := requestProxyReboot s0 host now
       let r2 := requestRestart r1.1
       let sfin := { r2.1 with consecutiveBleFailures := 0 }
       (sfin, (r1.2 ++ r2.2) ++ publishDeviceHealth safeIdFn sfin name ++
          publishHeartbeat sfin ++ publishDegradedState sfin)) := by
  unfold recordBleFailure
  rw [hret]
  simp only [if_pos rfl]
  rw [if_pos (show bleFailureTripCount ≤ s.consecutiveBleFailures + 1 by
    rw [hcnt]; unfold bleFailureTripCount; omega)]
  rfl

/-- Unfolding `recordBleFailure` on the escalation path without a proxy
host. -/
theorem recordBleFailure_trip_none_eq
    (safeIdFn : String → String) (s : HealthState) (name : String) (e : JsError)
    (now : Int)
    (hcnt : s.consecutiveBleFailures = 2)
    (hret : isSocketOrBLETimeoutError e = true) :
    recordBleFailure safeIdFn s name e none now =
      (let s0 : HealthState :=
        { s with lastBleErrorRetryable := some true,
                 consecutiveBleFailures := s.consecutiveBleFailures + 1 }
       let r1 := requestRestart s0
       (r1.1, r1.2 ++ publishDeviceHealth safeIdFn r1.1 name ++
          publishHeartbeat r1.1 ++ publishDegradedState r1.1)) := by
  unfold recordBleFailure
  rw [hret]
  simp only [if_pos rfl]
  rw [if_pos (show bleFailureTripCount ≤ s.consecutiveBleFailures + 1 by
    rw [hcnt]; unfold bleFailureTripCount; omega)]
  rfl

/-- **C3.**  When a retryable BLE failure takes the consecutive-failure
counter from 2 to the trip count 3: with a proxy host a proxy reboot is
dispatched (a `REBOOT` command, or the positive-remaining suppression
breadcrumb when within cooldown), the counter resets to 0 and a full restart
is requested; without a proxy host a full restart is requested.  Any
non-retryable failure resets the counter to 0. -/
theorem recordBleFailure_escalation
    (safeIdFn : String → String) (s : HealthState) (name : String) (e : JsError)
    (host : String) (now : Int)
    (hm : s.mqttReady = true)
    (hcnt : s.consecutiveBleFailures = 2)
    (hret : isSocketOrBLETimeoutError e = true) :
    ((recordBleFailure safeIdFn s name e (some host) now).1.consecutiveBleFailures = 0 ∧
      (recordBleFailure safeIdFn s name e (some host) now).1.restartRequested = true ∧
      (rebootCmdPub host ∈ (recordBleFailure safeIdFn s name e (some host) now).2 ∨
        ∃ r, 0 < r ∧
          rebootSuppressedPub host (now / 1000) r ∈
            (recordBleFailure safeIdFn s name e (some host) now).2)) ∧
    (recordBleFailure safeIdFn s name e none now).1.restartRequested = true ∧
    (∀ e2 : JsError, ∀ host2 : Option String,
      isSocketOrBLETimeoutError e2 = false →
      (recordBleFailure safeIdFn s name e2 host2 now).1.consecutiveBleFailures = 0) := by
  refine ⟨?_, ?_, ?_⟩
  · rw [recordBleFailure_trip_some_eq safeIdFn s name e host now hcnt hret]
    set s0 : HealthState :=
      { s with lastBleErrorRetryable := some true,
               consecutiveBleFailures := s.consecutiveBleFailures + 1 } with hs0
    have hm0 : s0.mqttReady = true := hm
    refine ⟨rfl, requestRestart_requested _, ?_⟩
    rcases requestProxyReboot_dispatches s0 host now hm0 with hd | ⟨r, hr, hd⟩
    · exact Or.inl (List.mem_append_left _ (List.mem_append_left _
        (List.mem_append_left _ (List.mem_append_left _ hd))))
    · exact Or.inr ⟨r, hr, List.mem_append_left _ (List.mem_append_left _
        (List.mem_append_left _ (List.mem_append_left _ hd)))⟩
  · rw [recordBleFailure_trip_none_eq safeIdFn s name e now hcnt hret]
    exact requestRestart_requested _
  · intro e2 host2 hret2
    unfold recordBleFailure
    rw [hret2]
    simp

/-- Witness for C3 at a concrete state and error. -/
theorem recordBleFailure_escalation_witness :
    ((recordBleFailure id ⟨true, 2, false, [], none⟩ "Bed1"
          ⟨str "timeout", []⟩ (some "10.0.0.50") 0).1.consecutiveBleFailures = 0 ∧
      (recordBleFailure id ⟨true, 2, false, [], none⟩ "Bed1"
          ⟨str "timeout", []⟩ (some "10.0.0.50") 0).1.restartRequested = true ∧
      (rebootCmdPub "10.0.0.50" ∈
          (recordBleFailure id ⟨true, 2, false, [], none⟩ "Bed1"
            ⟨str "timeout", []⟩ (some "10.0.0.50") 0).2 ∨
        ∃ r, 0 < r ∧
          rebootSuppressedPub "10.0.0.50" ((0 : Int) / 1000) r ∈
            (recordBleFailure id ⟨true, 2, false, [], none⟩ "Bed1"
              ⟨str "timeout", []⟩ (some "10.0.0.50") 0).2)) ∧
    (recordBleFailure id ⟨true, 2, false, [], none⟩ "Bed1"
        ⟨str "timeout", []⟩ none 0).1.restartRequested = true ∧
    (∀ e2 : JsError, ∀ host2 : Option String,
      isSocketOrBLETimeoutError e2 = false →
      (recordBleFailure id ⟨true, 2, false, [], none⟩ "Bed1" e2 host2
          0).1.consecutiveBleFailures = 0) :=
  recordBleFailure_escalation id ⟨true, 2, false, [], none⟩ "Bed1"
    ⟨str "timeout", []⟩ "10.0.0.50" 0 rfl rfl (by decide)

-- ### Availability topic (`src/MQTT/connectToMQTT.ts`) — C4

/-- `STATUS_TOPIC` of `connectToMQTT.ts`. -/
def STATUS_TOPIC : String := "smartbedmqtt/status"

/-- Events of the `mqtt` client for which `connectToMQTT` registers
handlers after the first `connect`. -/
inductive ClientEvent
  | connect
  | close
  | offline
  | error
deriving DecidableEq

/-- The publishes each registered client-event handler performs
(`connectToMQTT.ts`): `connect` publishes retained `online`; the `close` and
`offline` handlers publish retained `offline` ("If this is a graceful close,
publish offline.  Last Will covers ungraceful exits."); the `error` handler
only logs. -/
def mqttClientEventPublishes : ClientEvent → List Pub
  | ClientEvent.connect => [⟨STATUS_TOPIC, Payload.text "online", true⟩]
  | ClientEvent.close => [⟨STATUS_TOPIC, Payload.text "offline", true⟩]
  | ClientEvent.offline => [⟨STATUS_TOPIC, Payload.text "offline", true⟩]
  | ClientEvent.error => []

/-- Counterexample to C4: the running code's `close` and `offline` handlers
each publish the retained payload `offline` to the availability topic while
the process is alive — not only the last-will. -/
theorem mqttClient_close_publishes_offline :
    ⟨STATUS_TOPIC, Payload.text "offline", true⟩ ∈
        mqttClientEventPublishes ClientEvent.close ∧
      ⟨STATUS_TOPIC, Payload.text "offline", true⟩ ∈
        mqttClientEventPublishes ClientEvent.offline := by
  constructor <;> simp [mqttClientEventPublishes]

theorem status_topic_length : STATUS_TOPIC.length = 19 := by decide

/-- A topic built as `a ++ h ++ b` whose fixed parts already have combined
length ≠ 19 − |h| can never be the availability topic. -/
theorem append3_ne_status {a h b : String}
    (hlen : a.length + h.length + b.length ≠ 19) : a ++ h ++ b ≠ STATUS_TOPIC := by
  intro he
  have := congrArg String.length he
  rw [status_topic_length, String.length_append, String.length_append] at this
  omega

theorem append2_ne_status {a b : String} (hlen : a.length + b.length ≠ 19) :
    a ++ b ≠ STATUS_TOPIC := by
  intro he
  have := congrArg String.length he
  rw [status_topic_length, String.length_append] at this
  omega

theorem mem_publishHeartbeat_ne_status {s : HealthState} {p : Pub}
    (hp : p ∈ publishHeartbeat s) : p.topic ≠ STATUS_TOPIC := by
  unfold publishHeartbeat at hp
  split at hp
  · exact absurd hp (List.not_mem_nil p)
  · rw [List.mem_singleton] at hp
    subst hp
    decide

theorem mem_publishDegradedState_ne_status {s : HealthState} {p : Pub}
    (hp : p ∈ publishDegradedState s) : p.topic ≠ STATUS_TOPIC := by
  unfold publishDegradedState at hp
  split at hp
  · exact absurd hp (List.not_mem_nil p)
  · rw [List.mem_singleton] at hp
    subst hp
    show ("smartbedmqtt/status/degraded" : String) ≠ STATUS_TOPIC
    decide

theorem mem_publishDeviceHealth_ne_status {f : String → String} {s : HealthState}
    {name : String} {p : Pub} (hp : p ∈ publishDeviceHealth f s name) :
    p.topic ≠ STATUS_TOPIC := by
  unfold publishDeviceHealth at hp
  split at hp
  · exact absurd hp (List.not_mem_nil p)
  · rw [List.mem_singleton] at hp
    subst hp
    apply append2_ne_status
    have : ("smartbedmqtt/health/" : String).length = 20 := by decide
    omega

theorem mem_requestRestart_ne_status {s : HealthState} {p : Pub}
    (hp : p ∈ (requestRestart s).2) : p.topic ≠ STATUS_TOPIC := by
  unfold requestRestart at hp
  split at hp
  · exact absurd hp (List.not_mem_nil p)
  · exact mem_publishHeartbeat_ne_status hp

theorem mem_requestProxyReboot_ne_status {s : HealthState} {h : String} {t : Int}
    {p : Pub} (hp : p ∈ (requestProxyReboot s h t).2) : p.topic ≠ STATUS_TOPIC := by
  unfold requestProxyReboot at hp
  split at hp
  · exact absurd hp (List.not_mem_nil p)
  · dsimp only at hp
    split at hp
    · rw [List.mem_singleton] at hp
      subst hp
      apply append3_ne_status
      have h1 : ("smartbedmqtt/proxy/" : String).length = 19 := by decide
      have h2 : ("/reboot_suppressed" : String).length = 18 := by decide
      omega
    · rw [List.mem_cons, List.mem_singleton] at hp
      rcases hp with hp | hp <;> subst hp
      · apply append3_ne_status
        have h1 : ("smartbed-mqtt/proxy/" : String).length = 20 := by decide
        have h2 : ("/command" : String).length = 8 := by decide
        omega
      · apply append3_ne_status
        have h1 : ("smartbedmqtt/proxy/" : String).length = 19 := by decide
        have h2 : ("/reboot_requested" : String).length = 17 := by decide
        omega

/-- No BLE-failure path reaches the availability topic: every publish of
`recordBleFailure` targets a health, degraded, or proxy topic. -/
theorem recordBleFailure_ne_status
    (safeIdFn : String → String) (s : HealthState) (name : String) (e : JsError)
    (host : Option String) (now : Int) :
    ∀ p ∈ (recordBleFailure safeIdFn s name e host now).2, p.topic ≠ STATUS_TOPIC := by
  intro p hp
  unfold recordBleFailure at hp
  dsimp only at hp
  repeat split at hp
  all_goals try simp only [List.mem_append] at hp
  all_goals repeat rcases hp with hp | hp
  all_goals
    first
    | exact absurd hp (List.not_mem_nil p)
    | exact mem_requestProxyReboot_ne_status hp
    | exact mem_requestRestart_ne_status hp
    | exact mem_publishDeviceHealth_ne_status hp
    | exact mem_publishHeartbeat_ne_status hp
    | exact mem_publishDegradedState_ne_status hp

/-- **C4 (amended).**  Transient BLE failures never publish to the retained
availability topic at all (their topics are health/degraded/proxy topics),
but the MQTT client's `close` and `offline` handlers do publish the retained
payload `offline` to the availability topic while the process is alive; the
`connect` handler publishes retained `online`. -/
theorem availability_offline_sources
    (safeIdFn : String → String) (s : HealthState) (name : String) (e : JsError)
    (host : Option String) (now : Int) (p : Pub)
    (hp : p ∈ (recordBleFailure safeIdFn s name e host now).2) :
    p.topic ≠ STATUS_TOPIC ∧
      mqttClientEventPublishes ClientEvent.close =
        [⟨STATUS_TOPIC, Payload.text "offline", true⟩] ∧
      mqttClientEventPublishes ClientEvent.offline =
        [⟨STATUS_TOPIC, Payload.text "offline", true⟩] ∧
      mqttClientEventPublishes ClientEvent.connect =
        [⟨STATUS_TOPIC, Payload.text "online", true⟩] :=
  ⟨recordBleFailure_ne_status safeIdFn s name e host now p hp, rfl, rfl, rfl⟩

/-- Witness for the amended C4 at a concrete failure publish. -/
theorem availability_offline_sources_witness :
    (Pub.topic ⟨"smartbedmqtt/health", Payload.heartbeatJson, false⟩ ≠ STATUS_TOPIC) ∧
      mqttClientEventPublishes ClientEvent.close =
        [⟨STATUS_TOPIC, Payload.text "offline", true⟩] ∧
      mqttClientEventPublishes ClientEvent.offline =
        [⟨STATUS_TOPIC, Payload.text "offline", true⟩] ∧
      mqttClientEventPublishes ClientEvent.connect =
        [⟨STATUS_TOPIC, Payload.text "online", true⟩] :=
  availability_offline_sources id ⟨true, 0, false, [], none⟩ "Bed1"
    ⟨str "bad config", []⟩ none 0
    ⟨"smartbedmqtt/health", Payload.heartbeatJson, false⟩ (by decide)

-- ### Silent-scan self-heal (`ESPConnection.getBLEDevicesInternal`) — C6

/-- How a 30 s scan window ended: the completion deferred resolved
(`'complete'`) or the `wait(timeoutMs)` branch of the race won
(`'timeout'`). -/
inductive StopReason
  | complete
  | timeout
deriving DecidableEq

/-- The observable outcome of one scan pass of `discoverBLEDevices` plus the
race against the 30 s window: how it stopped, the `advertisementsSeen`
counter accumulated by the match callback, and the `bleDevices` list built
from matched advertisements (devices abstracted as identifiers). -/
structure ScanOutcome where
  stopReason : StopReason
  advertisementsSeen : Nat
  found : List Nat
deriving DecidableEq

/-- The self-heal condition of `getBLEDevicesInternal`: stop reason
`timeout`, no reconnect attempted yet for this call, at least one proxy
connection, and zero advertisements seen across all proxies. -/
def silentScan (scan : ScanOutcome) (reconnectAttempted : Bool)
    (numConnections : Nat) : Bool :=
  scan.stopReason = StopReason.timeout && !reconnectAttempted &&
    0 < numConnections && scan.advertisementsSeen = 0

/-- `getBLEDevicesInternal(deviceNames, nameMapper, reconnectAttempted)`,
with the environment supplying the outcome of each scan pass in order.
Returns how many full proxy-link reconnects the call performed and the
devices it returned.  On a silent scan the source reconnects and recurses
once with `reconnectAttempted = true`; otherwise it returns the devices of
the current scan. -/
def getBLEDevicesInternal (numConnections : Nat) :
    List ScanOutcome → Bool → Nat × List Nat
  | [], _ => (0, [])
  | scan :: rest, reconnectAttempted =>
    if silentScan scan reconnectAttempted numConnections then
      let r := getBLEDevicesInternal numConnections rest true
      (r.1 + 1, r.2)
    else (0, scan.found)

/-- **C6.**  With at least one proxy link, a call whose first scan times out
with zero advertisements performs exactly one reconnect and returns the
second scan's devices — even when the second scan is again silent, no
further reconnect happens; and a first scan that completed or saw any
advertisement performs no reconnect at all. -/
theorem getBLEDevices_reconnect_once
    (numConnections : Nat) (s1 s2 : ScanOutcome) (rest : List ScanOutcome)
    (hconn : 0 < numConnections) :
    (s1.stopReason = StopReason.timeout ∧ s1.advertisementsSeen = 0 →
      getBLEDevicesInternal numConnections (s1 :: s2 :: rest) false = (1, s2.found)) ∧
    (s1.stopReason = StopReason.complete ∨ 0 < s1.advertisementsSeen →
      getBLEDevicesInternal numConnections (s1 :: s2 :: rest) false = (0, s1.found)) := by
  constructor
  · rintro ⟨hto, hzero⟩
    have hsilent : silentScan s1 false numConnections = true := by
      simp [silentScan, hto, hzero, hconn]
    have hnosilent2 : silentScan s2 true numConnections = false := by
      simp [silentScan]
    rw [getBLEDevicesInternal, if_pos hsilent, getBLEDevicesInternal,
      if_neg (by rw [hnosilent2]; exact Bool.false_ne_true)]
  · intro hok
    have hnosilent : silentScan s1 false numConnections = false := by
      rcases hok with hok | hok
      · simp [silentScan, hok]
      · simp only [silentScan]
        have : (s1.advertisementsSeen = 0) = False := by
          simp; omega
        simp [this]
    rw [getBLEDevicesInternal, if_neg (by rw [hnosilent]; exact Bool.false_ne_true)]

/-- Witness for C6: a silent first scan followed by a successful second scan
reconnects once; a completed first scan never reconnects. -/
theorem getBLEDevices_reconnect_once_witness :
    getBLEDevicesInternal 1
        [⟨StopReason.timeout, 0, []⟩, ⟨StopReason.complete, 4, [7]⟩] false =
      (1, [7]) ∧
    getBLEDevicesInternal 1
        [⟨StopReason.complete, 4, [7]⟩, ⟨StopReason.timeout, 0, []⟩] false =
      (0, [7]) :=
  ⟨(getBLEDevices_reconnect_once 1 ⟨StopReason.timeout, 0, []⟩
      ⟨StopReason.complete, 4, [7]⟩ [] (by decide)).1 ⟨rfl, rfl⟩,
   (getBLEDevices_reconnect_once 1 ⟨StopReason.complete, 4, [7]⟩
      ⟨StopReason.timeout, 0, []⟩ [] (by decide)).2 (Or.inl rfl)⟩

-- ### Device-session connect, success path (`BLEDevice.connect`) — C7

/-- The process-wide per-DeviceKey maps of the device-session module:
persisted connect preferences (`connectPrefsByDeviceKey`, mirrored to disk on
every write), hard-failure cooldowns (`cooldownUntilByDeviceKey`) and the
temporary force-without-cache flags (`forceWithoutCacheUntilByDeviceKey`). -/
structure BleGlobalState where
  connectPrefsByDeviceKey : List (String × Bool)
  cooldownUntilByDeviceKey : List (String × Int)
  forceWithoutCacheUntilByDeviceKey : List (String × Int)
deriving DecidableEq

/-- `setConnectPref(key, { withoutCache })`: update the map and persist. -/
def setConnectPref (st : BleGlobalState) (key : String) (withoutCache : Bool) :
    BleGlobalState :=
  { st with connectPrefsByDeviceKey :=
      insertAL key withoutCache st.connectPrefsByDeviceKey }

/-- The success tail of `BLEDevice.connect` (after
`if (!response?.connected) throw`), in source order:

1. persist the used cache mode when it differs from the stored preference
   (`usedWithoutCache !== (pref.withoutCache === true)`), where
   `prefWithoutCache` is the preference read at the start of the attempt;
2. if the proxy reported `mtu === 0` (a number, not `undefined`), set a 2 s
   cooldown for the key;
3. set `this.connected = true` and *delete* the key's cooldown entry
   ("clear it on a successful connect");
4. if the connect took more than 8 s, arm force-without-cache for 15 min.

The source reads `Date.now()` separately in steps 2-4; the calls happen with
no awaits between them and are modelled as one instant `now`. -/
def connectSuccessTail (st : BleGlobalState) (deviceKey : String)
    (prefWithoutCache : Option Bool) (usedWithoutCache : Bool)
    (mtu : Option Int) (now connectStartedAt : Int) : BleGlobalState :=
  let st :=
    if usedWithoutCache ≠ (prefWithoutCache == some true) then
      setConnectPref st deviceKey usedWithoutCache
    else st
  let st :=
    if mtu == some 0 then
      { st with cooldownUntilByDeviceKey :=
          insertAL deviceKey (now + 2000) st.cooldownUntilByDeviceKey }
    else st
  let st :=
    { st with cooldownUntilByDeviceKey :=
        eraseAL deviceKey st.cooldownUntilByDeviceKey }
  let connectDurationMs := now - connectStartedAt
  if 8000 < connectDurationMs then
    { st with forceWithoutCacheUntilByDeviceKey :=
        insertAL deviceKey (now + 15 * 60000) st.forceWithoutCacheUntilByDeviceKey }
  else st

/-- **C7 (failing part).**  After any successful connect — in particular one
whose proxy response reported `mtu = 0` — no cooldown remains armed for the
DeviceKey: the unconditional `cooldownUntilByDeviceKey.delete(...)` of the
success path runs after (and cancels) the 2 s cooldown that the `mtu === 0`
branch had just armed. -/
theorem connect_success_no_cooldown_armed (st : BleGlobalState) (deviceKey : String)
    (prefWithoutCache : Option Bool) (usedWithoutCache : Bool) (mtu : Option Int)
    (now connectStartedAt : Int) :
    lookupAL deviceKey
        (connectSuccessTail st deviceKey prefWithoutCache usedWithoutCache mtu now
            connectStartedAt).cooldownUntilByDeviceKey = none := by
  unfold connectSuccessTail
  dsimp only
  split <;> dsimp only <;> exact lookupAL_erase _ _

example :
    lookupAL "10.0.0.50:123"
        (connectSuccessTail ⟨[], [], []⟩ "10.0.0.50:123" none false (some 0) 5000
            0).cooldownUntilByDeviceKey = none := by decide

/-- The true parts of C7 on the same success tail: the non-default cache
mode is persisted exactly when it differs from the stored preference, and a
connect duration above 8 s arms the 15-minute force-without-cache flag. -/
theorem connect_success_pref_and_force (st : BleGlobalState) (deviceKey : String)
    (prefWithoutCache : Option Bool) (usedWithoutCache : Bool) (mtu : Option Int)
    (now connectStartedAt : Int) :
    (usedWithoutCache ≠ (prefWithoutCache == some true) →
      lookupAL deviceKey
          (connectSuccessTail st deviceKey prefWithoutCache usedWithoutCache mtu now
              connectStartedAt).connectPrefsByDeviceKey = some usedWithoutCache) ∧
    (8000 < now - connectStartedAt →
      lookupAL deviceKey
          (connectSuccessTail st deviceKey prefWithoutCache usedWithoutCache mtu now
              connectStartedAt).forceWithoutCacheUntilByDeviceKey =
        some (now + 15 * 60000)) := by
  constructor
  · intro hdiff
    unfold connectSuccessTail
    dsimp only
    rw [if_pos hdiff]
    split <;> split <;> dsimp only [setConnectPref] <;> exact lookupAL_insert _ _ _
  · intro hslow
    unfold connectSuccessTail
    dsimp only
    rw [if_pos hslow]
    exact lookupAL_insert _ _ _

-- ### Per-controller command queue (`BLEController.writeCommands`) — C8

/-- Events observed at the proxy-link layer: operation `k` begins, or
operation `k` settles (`ok = true` fulfilled, `ok = false` rejected). -/
inductive QEvent
  | start (k : Nat)
  | settle (k : Nat) (ok : Bool)
deriving DecidableEq

/-- A promise in the queue chain, as the computation it performs when its
turn arrives: it extends the event trace and settles (`true` = fulfilled). -/
def PComp : Type := List QEvent → List QEvent × Bool

/-- `Promise.resolve()` — the initial `commandQueue`. -/
def pResolved : PComp := fun tr => (tr, true)

/-- `p.then(run)` with only a fulfillment handler: `run` executes when `p`
fulfilled; a rejection of `p` propagates without running `run`.  This is
`const op = this.commandQueue.then(run)`. -/
def pThenRun (p next : PComp) : PComp := fun tr =>
  let r := p tr
  if r.2 then next r.1 else (r.1, false)

/-- `op.then(() => undefined, () => undefined)`: both the fulfillment and
the rejection handler return, so the resulting promise always fulfills.
This is the queue update that keeps a failed operation from poisoning the
queue. -/
def pSwallow (p : PComp) : PComp := fun tr => ((p tr).1, true)

/-- The body `run` of the `k`-th `writeCommands` call, abstracted to the
events the proxy link observes: it starts, performs its work (connect,
writes, timer — not further modelled) and settles with outcome `ok`. -/
def runOp (k : Nat) (ok : Bool) : PComp := fun tr =>
  (tr ++ [QEvent.start k, QEvent.settle k ok], ok)

/-- The queue after a sequence of `writeCommands` calls with the given
outcomes: each call chains `op := queue.then(run)` and replaces the queue by
`op.then(() => undefined, () => undefined)`.  Each operation occurs exactly
once in the final chain, so running it yields the events of the whole call
sequence. -/
def buildQueue (outcomes : List (Nat × Bool)) : PComp :=
  outcomes.foldl (fun queue ko => pSwallow (pThenRun queue (runOp ko.1 ko.2))) pResolved

/-- The trace of proxy-link events produced by the queue. -/
def commandTrace (outcomes : List Bool) : List QEvent :=
  (buildQueue outcomes.enum []).1

/-- The strictly serialized trace: operation `k` starts only after operation
`k-1` settled, every operation runs exactly once, in enqueue order. -/
def serialTrace (outcomes : List Bool) : List QEvent :=
  outcomes.enum.flatMap fun ko => [QEvent.start ko.1, QEvent.settle ko.1 ko.2]

theorem buildQueue_run (pairs : List (Nat × Bool)) :
    ∀ (q : PComp) (c : List QEvent), (∀ tr, q tr = (tr ++ c, true)) →
      ∀ tr,
        (pairs.foldl (fun queue ko => pSwallow (pThenRun queue (runOp ko.1 ko.2))) q) tr =
          (tr ++ c ++ pairs.flatMap (fun ko => [QEvent.start ko.1, QEvent.settle ko.1 ko.2]),
            true) := by
  induction pairs with
  | nil =>
    intro q c hq tr
    simp only [List.foldl_nil, List.flatMap_nil, List.append_nil]
    exact hq tr
  | cons ko rest ih =>
    intro q c hq tr
    rw [List.foldl_cons]
    have hq' : ∀ tr,
        pSwallow (pThenRun q (runOp ko.1 ko.2)) tr =
          (tr ++ (c ++ [QEvent.start ko.1, QEvent.settle ko.1 ko.2]), true) := by
      intro tr'
      unfold pSwallow pThenRun runOp
      rw [hq tr']
      simp [List.append_assoc]
    rw [ih _ _ hq' tr]
    simp [List.append_assoc]

/-- **C8.**  The per-controller FIFO: the events of the promise-chain queue
are exactly the serialized trace — operations run in enqueue order, each
operation starts only after the previous one settled (completed or failed),
every queued operation runs exactly once, and a rejected operation does not
prevent later operations from running. -/
theorem writeCommands_fifo (outcomes : List Bool) :
    commandTrace outcomes = serialTrace outcomes := by
  unfold commandTrace serialTrace buildQueue
  rw [buildQueue_run outcomes.enum pResolved [] (fun tr => by simp [pResolved]) []]
  simp

-- ### Global connect mutex vs. cooldown sleep (`BLEDevice.connect`) — C1

/-- Interleaving state of the device-session connect path for one fixed
DeviceKey served by two live `BLEDevice` instances (the scan/retry loops of
the source create several instances for the same key; the constructor's
`cleanup()` removes the old instance's listeners but does not prevent
`connect()` calls on it).

`globalInFlight` is the key's entry in `connectInFlightByDeviceKey`;
`inst1Connecting`/`inst2Connecting` are the two instances'
`this.connectingPromise`; `cooldownActive` says whether
`cooldownUntilByDeviceKey` holds a deadline still in the future throughout
the window considered; `sleeping` marks a `connect()` call parked at
`await sleep(cooldownUntil - now)`; `inFlightConnects` lists the connect
requests issued to the proxy and not yet completed. -/
structure ConnectCfg where
  globalInFlight : Option Nat
  inst1Connecting : Option Nat
  inst2Connecting : Option Nat
  cooldownActive : Bool
  sleeping1 : Bool
  sleeping2 : Bool
  inFlightConnects : List Nat
  nextId : Nat
deriving DecidableEq

/-- The synchronous segment of `connect()` that runs after the cooldown
check (or directly, when no cooldown is set): check the *instance* mutex
`this.connectingPromise` — the global map is NOT re-checked here — then
create the connect promise, store it in the instance field and the global
map, and issue the proxy connect.  In the single-threaded JS runtime this
whole segment runs without interleaving. -/
def acquireSegment (cfg : ConnectCfg) (inst1 : Bool) : ConnectCfg :=
  let instP := if inst1 then cfg.inst1Connecting else cfg.inst2Connecting
  match instP with
  | some _ => cfg
  | none =>
    let id := cfg.nextId
    { cfg with
      nextId := id + 1
      inst1Connecting := if inst1 then some id else cfg.inst1Connecting
      inst2Connecting := if inst1 then cfg.inst2Connecting else some id
      globalInFlight := some id
      inFlightConnects := cfg.inFlightConnects ++ [id] }

/-- Scheduler actions: a caller invokes `connect()` on instance 1 or 2, or a
parked cooldown sleep resolves. -/
inductive ConnectAct
  | call (inst1 : Bool)
  | wake (inst1 : Bool)
deriving DecidableEq

/-- One scheduler step of the connect path.

`call`: `connect()` runs synchronously from entry.  If the global map holds
an in-flight promise, the call awaits and returns it.  Otherwise, if a
cooldown is armed, the call suspends in `await sleep(...)` — note that the
global-map check happened *before* this suspension.  With no cooldown the
call proceeds straight into `acquireSegment` with no interleaving point.

`wake`: a parked sleep resolves and the call continues with the instance
check and promise creation only — faithfully to the source, which does not
repeat the `connectInFlightByDeviceKey` lookup after the sleep. -/
def connectStep (cfg : ConnectCfg) : ConnectAct → ConnectCfg
  | ConnectAct.call inst1 =>
    match cfg.globalInFlight with
    | some _ => cfg
    | none =>
      if cfg.cooldownActive then
        if inst1 then { cfg with sleeping1 := true } else { cfg with sleeping2 := true }
      else acquireSegment cfg inst1
  | ConnectAct.wake inst1 =>
    if inst1 then
      if cfg.sleeping1 then acquireSegment { cfg with sleeping1 := false } true else cfg
    else
      if cfg.sleeping2 then acquireSegment { cfg with sleeping2 := false } false else cfg

/-- Run a schedule. -/
def connectRun (cfg : ConnectCfg) (acts : List ConnectAct) : ConnectCfg :=
  acts.foldl connectStep cfg

/-- The initial configuration: no promise anywhere, no connect issued. -/
def initialConnectCfg (cooldown : Bool) : ConnectCfg :=
  ⟨none, none, none, cooldown, false, false, [], 0⟩

/-- **C1 (violation exhibit).**  With a cooldown armed for the key, two
instances call `connect()` during the cooldown; both pass the global-map
check (still empty), both sleep, and on waking each creates and issues its
own connect — two connect futures are in flight for the same DeviceKey at
once, violating the per-key global-mutex invariant the code's comments
promise. -/
theorem connect_mutex_violated_after_cooldown :
    (connectRun (initialConnectCfg true)
        [ConnectAct.call true, ConnectAct.call false,
         ConnectAct.wake true, ConnectAct.wake false]).inFlightConnects = [0, 1] ∧
      ¬ (connectRun (initialConnectCfg true)
          [ConnectAct.call true, ConnectAct.call false,
           ConnectAct.wake true, ConnectAct.wake false]).inFlightConnects.length ≤ 1 := by
  constructor <;> decide

/-- For contrast: without a cooldown the entry segment is atomic, so the
same two callers share one connect future and only one proxy connect is
issued. -/
theorem connect_mutex_holds_without_cooldown :
    (connectRun (initialConnectCfg false)
        [ConnectAct.call true, ConnectAct.call false]).inFlightConnects = [0] := by
  decide
